import Mathlib

set_option maxHeartbeats 1000000
set_option maxRecDepth 4000

/-!
Shallow embedding of the buffer manager from
src/include/moderndbs/buffer_manager.h and src/src/buffer_manager.cc.

Modelling conventions:
* Machine integers (uint64_t, uint16_t, size_t) are Nat; the uint16_t
  truncation in get_segment_id and the size_t multiplication in the
  BufferFrame constructor carry an explicit mod 2^w.
* Each resident page id owns exactly one heap-allocated BufferFrame, so the
  BufferFrame pointers stored in the fifo and lru vectors are represented by
  the page ids of the frames they point to, and the unordered_map from page
  ids to frame pointers is an association list from page ids to frame values.
* The pthread_rwlock_t of a frame is a Latch value: free, held by n readers,
  or held by one writer.  pthread_rwlock_trywrlock succeeds exactly on a free
  latch; pthread_rwlock_tryrdlock succeeds unless a writer holds the latch.
* The backing segment-file store is a Disk: a total byte map indexed by
  segment id and byte offset, plus an environment oracle readFails telling
  which read_block calls raise an I/O error.
* Calls are interleaved atomically (the code serialises table and queue
  updates under the manager mutex); a blocking latch acquisition that cannot
  succeed at once is the blocked outcome, since in a serial run it never
  returns.
-/

namespace Moderndbs

/-- FrameState from buffer_manager.h: empty (data not loaded yet), clean
(loaded, unmodified), dirty (loaded, has changed). -/
inductive FrameState where
  | empty
  | clean
  | dirty
deriving DecidableEq, Repr

/-- State of the per-frame pthread_rwlock_t: free, held by n+1 readers, or held
by one writer. -/
inductive Latch where
  | free
  | shared (n : Nat)
  | exclusive
deriving DecidableEq, Repr

/-- Non-blocking acquisition on a rwlock: trywrlock succeeds only on a free
latch; tryrdlock succeeds on a free latch or one held by readers.  Returns
the latch after a successful acquisition, none on failure. -/
def tryLatch (l : Latch) (exclusive : Bool) : Option Latch :=
  match exclusive, l with
  | true, .free => some .exclusive
  | true, _ => none
  | false, .free => some (.shared 0)
  | false, .shared n => some (.shared (n + 1))
  | false, .exclusive => none

/-- Release of a rwlock by one holder (pthread_rwlock_unlock): a writer or
the last reader frees the latch, another reader decrements the count.
Unlocking a free latch is undefined behaviour in the source; it is modelled
as a no-op and never arises in the scenarios considered. -/
def unlatch (l : Latch) : Latch :=
  match l with
  | .exclusive => .free
  | .shared 0 => .free
  | .shared (n + 1) => .shared n
  | .free => .free

/-- The backing store of segment files: a byte at every (segment id, byte
offset), plus an oracle marking which read_block calls fail with an I/O
error (environmental failures of the underlying file). -/
structure Disk where
  bytes : Nat → Nat → Nat
  readFails : Nat → Nat → Bool

/-- Effect of write_block on the store: buf is written at offsets
[off, off + buf.length) of segment seg. -/
def Disk.writeBlock (d : Disk) (seg off : Nat) (buf : List Nat) : Disk :=
  { d with bytes := fun s o =>
      if s = seg ∧ off ≤ o ∧ o < off + buf.length then buf.getD (o - off) 0
      else d.bytes s o }

/-- BufferFrame from buffer_manager.h: page identity, configured page size,
derived segment id and byte offset, frame state, the owned buffer (none
models the null pointer), and the reader-writer latch. -/
structure BufferFrame where
  page_id : Nat
  page_size : Nat
  segment_id : Nat
  pageOffsetInFile : Nat
  state : FrameState
  data : Option (List Nat)
  latch : Latch
deriving DecidableEq, Repr

/-- BufferManager::get_segment_id: the high 16 bits of the page id, with the
uint16_t conversion made explicit. -/
def get_segment_id (page_id : Nat) : Nat :=
  (page_id >>> 48) % 2 ^ 16

/-- BufferManager::get_segment_page_id: the low 48 bits of the page id. -/
def get_segment_page_id (page_id : Nat) : Nat :=
  page_id &&& (2 ^ 48 - 1)

/-- BufferFrame::BufferFrame: null data, empty state, free latch, and
pageOffsetInFile = (page_id & ((1ull << 48) - 1)) * page_size computed in
size_t arithmetic (mod 2^64). -/
def BufferFrame.mkFrame (page_id page_size segment_id : Nat) : BufferFrame :=
  { page_id := page_id
    page_size := page_size
    segment_id := segment_id
    pageOffsetInFile := ((page_id &&& (2 ^ 48 - 1)) * page_size) % 2 ^ 64
    state := .empty
    data := none
    latch := .free }

/-- BufferFrame::readPage: allocate the buffer (malloc contents are
indeterminate; zeros stand in for them, no claim depends on them), then read
page_size bytes at pageOffsetInFile from the segment file named by the
segment id.  A read_block failure propagates as an exception, leaving the
frame with allocated data and state still empty; on success the buffer holds
the bytes read and the state becomes clean. -/
def BufferFrame.readPage (fr : BufferFrame) (d : Disk) : Except Unit BufferFrame :=
  let fr1 := { fr with data := some (List.replicate fr.page_size 0) }
  if d.readFails fr.segment_id fr.pageOffsetInFile then .error ()
  else .ok { fr1 with
    data := some ((List.range fr.page_size).map fun i =>
      d.bytes fr.segment_id (fr.pageOffsetInFile + i))
    state := .clean }

/-- BufferFrame::writePage: write the page_size buffer bytes at
pageOffsetInFile into the segment file, then set the state to clean. -/
def BufferFrame.writePage (fr : BufferFrame) (d : Disk) : BufferFrame × Disk :=
  ({ fr with state := .clean },
   d.writeBlock fr.segment_id fr.pageOffsetInFile (fr.data.getD []))

/-- BufferFrame::flush: write back only if the page has been modified. -/
def BufferFrame.flush (fr : BufferFrame) (d : Disk) : BufferFrame × Disk :=
  if fr.state = .dirty then fr.writePage d else (fr, d)

/-- BufferFrame::setDirty. -/
def BufferFrame.setDirty (fr : BufferFrame) : BufferFrame :=
  { fr with state := .dirty }

/-- BufferFrame::unlock. -/
def BufferFrame.unlock (fr : BufferFrame) : BufferFrame :=
  { fr with latch := unlatch fr.latch }

/-- BufferFrame::get_data: materialise the page on first access (state
empty), otherwise return the already loaded buffer.  The pair is the frame
after the call and the bytes handed to the caller; an error is a propagated
read failure. -/
def BufferFrame.get_data (fr : BufferFrame) (d : Disk) :
    Except Unit (BufferFrame × List Nat) :=
  match fr.state with
  | .empty =>
    match fr.readPage d with
    | .error () => .error ()
    | .ok fr1 => .ok (fr1, fr1.data.getD [])
  | _ => .ok (fr, fr.data.getD [])

/-- Lookup in the unordered_map from page ids to frames (find). -/
def lookupFrame : List (Nat × BufferFrame) → Nat → Option BufferFrame
  | [], _ => none
  | (k, fr) :: rest, pid => if k = pid then some fr else lookupFrame rest pid

/-- In-place mutation of the frame a page id maps to (the table holds
pointers; mutating the pointee rewrites the mapped value). -/
def updateFrame : List (Nat × BufferFrame) → Nat → (BufferFrame → BufferFrame) →
    List (Nat × BufferFrame)
  | [], _, _ => []
  | (k, fr) :: rest, pid, f =>
    if k = pid then (k, f fr) :: updateFrame rest pid f
    else (k, fr) :: updateFrame rest pid f

/-- unordered_map::erase by key. -/
def eraseFrame (m : List (Nat × BufferFrame)) (pid : Nat) :
    List (Nat × BufferFrame) :=
  m.filter fun kv => kv.1 != pid

/-- BufferManager from buffer_manager.h: configuration, the page table, the
two replacement queues (pointers represented by page ids), and the backing
store the frames do I/O against. -/
structure BufferManager where
  page_size : Nat
  page_count : Nat
  bufferFrameMap : List (Nat × BufferFrame)
  fifo : List Nat
  lru : List Nat
  disk : Disk

/-- BufferManager::BufferManager: empty table and queues. -/
def BufferManager.new (page_size page_count : Nat) (d : Disk) : BufferManager :=
  { page_size := page_size
    page_count := page_count
    bufferFrameMap := []
    fifo := []
    lru := []
    disk := d }

/-- BufferManager::isFrameAvailable: table size below page_count. -/
def BufferManager.isFrameAvailable (bm : BufferManager) : Bool :=
  decide (bm.bufferFrameMap.length < bm.page_count)

/-- Selectability of a queue entry as an eviction victim: the non-blocking
exclusive latch acquisition (lockWrite(false), i.e. trywrlock) succeeds,
which happens exactly when the latch is free. -/
def selectable (m : List (Nat × BufferFrame)) (pid : Nat) : Bool :=
  match lookupFrame m pid with
  | some fr => fr.latch == .free
  | none => false

/-- Result of a fix_page call in a serial run: a latched frame (identified
by its page id), a buffer_full_error, or a call blocked forever on a
contended latch (the queue updates made before blocking are recorded). -/
inductive FixOutcome where
  | ok (bm : BufferManager) (page_id : Nat)
  | blocked (bm : BufferManager)
  | bufferFull (bm : BufferManager)

/-- The manager state carried by any fix_page outcome. -/
def FixOutcome.state : FixOutcome → BufferManager
  | .ok bm _ => bm
  | .blocked bm => bm
  | .bufferFull bm => bm

/-- Eviction branch of fix_page for a chosen victim: flush the victim (write
back if dirty), erase it from the table and the fifo queue, destroy it (the
second flush in the destructor is a no-op on the now clean frame). -/
def BufferManager.evict (bm : BufferManager) (victim : Nat) : BufferManager :=
  match lookupFrame bm.bufferFrameMap victim with
  | none => bm
  | some fr =>
    let fd := fr.flush bm.disk
    { bm with
      disk := fd.2
      bufferFrameMap := eraseFrame bm.bufferFrameMap victim
      fifo := bm.fifo.filter fun q => q != victim }

/-- Tail of the fix_page miss path: create the frame for page_id, insert it
into the table, append it to the fifo queue, and take its fresh latch in the
requested mode (the blocking acquisition succeeds at once on a fresh
latch). -/
def BufferManager.insertNew (bm : BufferManager) (page_id : Nat)
    (exclusive : Bool) : FixOutcome :=
  let fr0 := BufferFrame.mkFrame page_id bm.page_size (get_segment_id page_id)
  let fr := { fr0 with latch := if exclusive then .exclusive else .shared 0 }
  .ok { bm with
    bufferFrameMap := bm.bufferFrameMap ++ [(page_id, fr)]
    fifo := bm.fifo ++ [page_id] } page_id

/-- BufferManager::fix_page.  Hit path: move the frame to the lru tail,
remove it from fifo, try the requested latch non-blockingly and fall back to
a blocking acquisition.  Miss path: if the table is full, scan the fifo
queue head-to-tail for the first frame whose exclusive try-lock succeeds;
with no candidate throw buffer_full_error, otherwise evict the candidate;
then create, insert and latch the new frame. -/
def BufferManager.fix_page (bm : BufferManager) (page_id : Nat)
    (exclusive : Bool) : FixOutcome :=
  match lookupFrame bm.bufferFrameMap page_id with
  | some fr =>
    let bm1 : BufferManager :=
      { bm with
        lru := (bm.lru.filter fun q => q != page_id) ++ [page_id]
        fifo := bm.fifo.filter fun q => q != page_id }
    match tryLatch fr.latch exclusive with
    | some l =>
      let m1 := updateFrame bm1.bufferFrameMap page_id
        (fun f => { f with latch := l })
      .ok { bm1 with bufferFrameMap := m1 } page_id
    | none => .blocked bm1
  | none =>
    if bm.isFrameAvailable then bm.insertNew page_id exclusive
    else
      match bm.fifo.find? (fun q => selectable bm.bufferFrameMap q) with
      | none => .bufferFull bm
      | some victim => (bm.evict victim).insertNew page_id exclusive

/-- BufferManager::unfix_page on the frame of a page id: mark dirty if
requested, then release the latch held by the caller.  The source takes the frame by
reference; since each resident page has exactly one frame, the reference is
identified by its page id. -/
def BufferManager.unfix_page (bm : BufferManager) (page_id : Nat)
    (is_dirty : Bool) : BufferManager :=
  let m1 := updateFrame bm.bufferFrameMap page_id
    (fun fr => (if is_dirty then fr.setDirty else fr).unlock)
  { bm with bufferFrameMap := m1 }

/-- BufferManager::get_fifo_list: the page ids of the fifo queue in order
(the queue entries are already represented by page ids). -/
def BufferManager.get_fifo_list (bm : BufferManager) : List Nat :=
  bm.fifo

/-- BufferManager::get_lru_list. -/
def BufferManager.get_lru_list (bm : BufferManager) : List Nat :=
  bm.lru

/-- Manager-level get_data on a resident page: materialise through the
frame.  On a read failure the error propagates to the caller and the frame
stays where it is (none in the second component); on success the new frame
state is written back through the pointer in the table. -/
def BufferManager.getData (bm : BufferManager) (page_id : Nat) :
    BufferManager × Option (List Nat) :=
  match lookupFrame bm.bufferFrameMap page_id with
  | none => (bm, none)
  | some fr =>
    match fr.get_data bm.disk with
    | .error () =>
      let m1 := updateFrame bm.bufferFrameMap page_id
        (fun _ => { fr with data := some (List.replicate fr.page_size 0) })
      ({ bm with bufferFrameMap := m1 }, none)
    | .ok (fr1, bs) =>
      let m1 := updateFrame bm.bufferFrameMap page_id (fun _ => fr1)
      ({ bm with bufferFrameMap := m1 }, some bs)

/-- One serial call against the manager: a fix_page or an unfix_page. -/
inductive Op where
  | fix (page_id : Nat) (exclusive : Bool)
  | unfix (page_id : Nat) (is_dirty : Bool)

/-- Serial interleaving: the manager state after one call. -/
def BufferManager.step (bm : BufferManager) : Op → BufferManager
  | .fix pid e => (bm.fix_page pid e).state
  | .unfix pid d => bm.unfix_page pid d

/-- Serial interleaving: the manager state after a call sequence. -/
def BufferManager.run (bm : BufferManager) (ops : List Op) : BufferManager :=
  ops.foldl BufferManager.step bm

/-- Page ids resident in the table. -/
def keys (m : List (Nat × BufferFrame)) : List Nat :=
  m.map Prod.fst

/-- Well-formedness of a pool state, as maintained by the source: page ids
are unique in the table, each queue entry occurs once over both queues, the
queues hold exactly the resident page ids, and the table respects the
configured capacity. -/
structure Inv (bm : BufferManager) : Prop where
  keysNodup : (keys bm.bufferFrameMap).Nodup
  queuesNodup : (bm.fifo ++ bm.lru).Nodup
  mem_iff : ∀ p : Nat, p ∈ bm.fifo ++ bm.lru ↔ p ∈ keys bm.bufferFrameMap
  size_le : bm.bufferFrameMap.length ≤ bm.page_count

theorem lookupFrame_eq_none_iff {m : List (Nat × BufferFrame)} {pid : Nat} :
    lookupFrame m pid = none ↔ pid ∉ keys m := by
  induction m with
  | nil => simp [lookupFrame, keys]
  | cons kv rest ih =>
    obtain ⟨k, fr⟩ := kv
    by_cases h : k = pid
    · subst h
      simp [lookupFrame, keys]
    · have h' : pid ≠ k := fun hh => h hh.symm
      simp [lookupFrame, keys, h, h', ih]

theorem mem_keys_of_lookupFrame {m : List (Nat × BufferFrame)} {pid : Nat}
    {fr : BufferFrame} (h : lookupFrame m pid = some fr) : pid ∈ keys m := by
  by_contra hk
  rw [lookupFrame_eq_none_iff.mpr hk] at h
  cases h

theorem keys_updateFrame (m : List (Nat × BufferFrame)) (pid : Nat)
    (f : BufferFrame → BufferFrame) : keys (updateFrame m pid f) = keys m := by
  induction m with
  | nil => rfl
  | cons kv rest ih =>
    obtain ⟨k, fr⟩ := kv
    by_cases h : k = pid <;> simp [updateFrame, keys, h] <;>
      simpa [keys] using ih

theorem length_updateFrame (m : List (Nat × BufferFrame)) (pid : Nat)
    (f : BufferFrame → BufferFrame) :
    (updateFrame m pid f).length = m.length := by
  induction m with
  | nil => rfl
  | cons kv rest ih =>
    obtain ⟨k, fr⟩ := kv
    by_cases h : k = pid <;> simp [updateFrame, h] <;> simpa using ih

theorem lookupFrame_updateFrame_self {m : List (Nat × BufferFrame)}
    {pid : Nat} {fr : BufferFrame} (f : BufferFrame → BufferFrame)
    (h : lookupFrame m pid = some fr) :
    lookupFrame (updateFrame m pid f) pid = some (f fr) := by
  induction m with
  | nil => cases h
  | cons kv rest ih =>
    obtain ⟨k, fr'⟩ := kv
    by_cases hk : k = pid
    · subst hk
      simp [lookupFrame] at h
      simp [updateFrame, lookupFrame, h]
    · simp only [lookupFrame, if_neg hk] at h
      simpa [updateFrame, lookupFrame, hk] using ih h

theorem lookupFrame_updateFrame_ne {m : List (Nat × BufferFrame)}
    {pid q : Nat} (f : BufferFrame → BufferFrame) (h : q ≠ pid) :
    lookupFrame (updateFrame m pid f) q = lookupFrame m q := by
  induction m with
  | nil => rfl
  | cons kv rest ih =>
    obtain ⟨k, fr'⟩ := kv
    by_cases hk : k = pid
    · subst hk
      have hne : ¬ k = q := fun hh => h hh.symm
      simp [updateFrame, lookupFrame, hne, ih]
    · by_cases hq : k = q <;> simp [updateFrame, lookupFrame, hk, hq, h, ih]

theorem keys_eraseFrame (m : List (Nat × BufferFrame)) (pid : Nat) :
    keys (eraseFrame m pid) = (keys m).filter (fun q => q != pid) := by
  induction m with
  | nil => rfl
  | cons kv rest ih =>
    obtain ⟨k, fr⟩ := kv
    by_cases h : k = pid <;> simp [eraseFrame, keys, h] <;>
      simpa [eraseFrame, keys] using ih

theorem length_eraseFrame_le (m : List (Nat × BufferFrame)) (pid : Nat) :
    (eraseFrame m pid).length ≤ m.length :=
  List.length_filter_le _ m

theorem length_eraseFrame_lt {m : List (Nat × BufferFrame)} {pid : Nat}
    (h : pid ∈ keys m) : (eraseFrame m pid).length < m.length := by
  induction m with
  | nil => cases h
  | cons kv rest ih =>
    obtain ⟨k, fr⟩ := kv
    by_cases hk : k = pid
    · subst hk
      simp only [eraseFrame, List.filter_cons, bne_self_eq_false]
      exact Nat.lt_succ_of_le (List.length_filter_le _ rest)
    · have hmem : pid ∈ keys rest := by
        have h' : pid ∈ k :: keys rest := h
        rcases List.mem_cons.mp h' with h1 | h1
        · exact absurd h1.symm hk
        · exact h1
      have := ih hmem
      simp only [eraseFrame, List.filter_cons] at *
      have hb : (k != pid) = true := by simp [hk]
      rw [hb]
      simpa [eraseFrame] using Nat.succ_lt_succ this

theorem keys_append (m n : List (Nat × BufferFrame)) :
    keys (m ++ n) = keys m ++ keys n := by
  simp [keys]

theorem fix_page_hit_ok {bm : BufferManager} {pid : Nat} {e : Bool}
    {fr : BufferFrame} {l : Latch}
    (hl : lookupFrame bm.bufferFrameMap pid = some fr)
    (htl : tryLatch fr.latch e = some l) :
    bm.fix_page pid e = .ok { bm with
      lru := (bm.lru.filter fun q => q != pid) ++ [pid]
      fifo := bm.fifo.filter fun q => q != pid
      bufferFrameMap := updateFrame bm.bufferFrameMap pid
        (fun f => { f with latch := l }) } pid := by
  simp [BufferManager.fix_page, hl, htl]

theorem fix_page_hit_blocked {bm : BufferManager} {pid : Nat} {e : Bool}
    {fr : BufferFrame}
    (hl : lookupFrame bm.bufferFrameMap pid = some fr)
    (htl : tryLatch fr.latch e = none) :
    bm.fix_page pid e = .blocked { bm with
      lru := (bm.lru.filter fun q => q != pid) ++ [pid]
      fifo := bm.fifo.filter fun q => q != pid } := by
  simp [BufferManager.fix_page, hl, htl]

theorem fix_page_miss_avail {bm : BufferManager} {pid : Nat} {e : Bool}
    (hl : lookupFrame bm.bufferFrameMap pid = none)
    (hav : bm.isFrameAvailable = true) :
    bm.fix_page pid e = bm.insertNew pid e := by
  simp [BufferManager.fix_page, hl, hav]

theorem fix_page_miss_full {bm : BufferManager} {pid : Nat} {e : Bool}
    (hl : lookupFrame bm.bufferFrameMap pid = none)
    (hav : bm.isFrameAvailable = false)
    (hfind : bm.fifo.find? (fun q => selectable bm.bufferFrameMap q) = none) :
    bm.fix_page pid e = .bufferFull bm := by
  simp [BufferManager.fix_page, hl, hav, hfind]

theorem fix_page_miss_evict {bm : BufferManager} {pid : Nat} {e : Bool}
    {v : Nat}
    (hl : lookupFrame bm.bufferFrameMap pid = none)
    (hav : bm.isFrameAvailable = false)
    (hfind : bm.fifo.find? (fun q => selectable bm.bufferFrameMap q) = some v) :
    bm.fix_page pid e = (bm.evict v).insertNew pid e := by
  simp [BufferManager.fix_page, hl, hav, hfind]

theorem evict_state {bm : BufferManager} {v : Nat} {fr : BufferFrame}
    (hv : lookupFrame bm.bufferFrameMap v = some fr) :
    bm.evict v = { bm with
      disk := (fr.flush bm.disk).2
      bufferFrameMap := eraseFrame bm.bufferFrameMap v
      fifo := bm.fifo.filter fun q => q != v } := by
  simp [BufferManager.evict, hv]

theorem insertNew_state (bm : BufferManager) (pid : Nat) (e : Bool) :
    (bm.insertNew pid e).state = { bm with
      bufferFrameMap := bm.bufferFrameMap ++
        [(pid, { BufferFrame.mkFrame pid bm.page_size (get_segment_id pid) with
                 latch := if e then .exclusive else .shared 0 })]
      fifo := bm.fifo ++ [pid] } := by
  simp [BufferManager.insertNew, FixOutcome.state]

theorem inv_new (ps pc : Nat) (d : Disk) : Inv (BufferManager.new ps pc d) := by
  constructor <;> simp [BufferManager.new, keys]

theorem inv_requeue {bm : BufferManager} (h : Inv bm) {pid : Nat}
    (hmem : pid ∈ keys bm.bufferFrameMap) (m' : List (Nat × BufferFrame))
    (hk : keys m' = keys bm.bufferFrameMap)
    (hlen : m'.length = bm.bufferFrameMap.length) :
    Inv { bm with
      bufferFrameMap := m'
      fifo := bm.fifo.filter fun q => q != pid
      lru := (bm.lru.filter fun q => q != pid) ++ [pid] } := by
  obtain ⟨hkn, hqn, hmi, hsz⟩ := h
  rw [List.nodup_append] at hqn
  obtain ⟨hf, hl, hd⟩ := hqn
  constructor
  · simpa [hk] using hkn
  · rw [List.nodup_append]
    refine ⟨hf.filter _, ?_, ?_⟩
    · rw [List.nodup_append]
      refine ⟨hl.filter _, List.nodup_singleton _, ?_⟩
      intro x hx hx1
      rcases List.mem_singleton.mp hx1 with rfl
      rcases List.mem_filter.mp hx with ⟨_, hb⟩
      simp at hb
    · intro x hx hx2
      rcases List.mem_filter.mp hx with ⟨hxf, hb⟩
      have hbx : x ≠ pid := by simpa using hb
      rcases List.mem_append.mp hx2 with hx2 | hx2
      · rcases List.mem_filter.mp hx2 with ⟨hxl, _⟩
        exact hd hxf hxl
      · exact hbx (List.mem_singleton.mp hx2)
  · intro p
    show p ∈ _ ++ (_ ++ [pid]) ↔ p ∈ keys m'
    rw [hk]
    by_cases hp : p = pid
    · subst hp
      simp [hmem]
    · have hb : (p != pid) = true := by simpa using hp
      constructor
      · intro hpm
        apply (hmi p).mp
        rcases List.mem_append.mp hpm with h1 | h1
        · exact List.mem_append_left _ (List.mem_filter.mp h1).1
        · rcases List.mem_append.mp h1 with h2 | h2
          · exact List.mem_append_right _ (List.mem_filter.mp h2).1
          · exact absurd (List.mem_singleton.mp h2) hp
      · intro hpk
        rcases List.mem_append.mp ((hmi p).mpr hpk) with h1 | h1
        · exact List.mem_append_left _ (List.mem_filter.mpr ⟨h1, hb⟩)
        · exact List.mem_append_right _
            (List.mem_append_left _ (List.mem_filter.mpr ⟨h1, hb⟩))
  · simpa [hlen] using hsz

theorem inv_insert {bm : BufferManager} (h : Inv bm) {pid : Nat}
    (hpid : pid ∉ keys bm.bufferFrameMap)
    (hcap : bm.bufferFrameMap.length < bm.page_count) (fr : BufferFrame) :
    Inv { bm with
      bufferFrameMap := bm.bufferFrameMap ++ [(pid, fr)]
      fifo := bm.fifo ++ [pid] } := by
  obtain ⟨hkn, hqn, hmi, hsz⟩ := h
  rw [List.nodup_append] at hqn
  obtain ⟨hf, hl, hd⟩ := hqn
  have hpf : pid ∉ bm.fifo := fun hx =>
    hpid ((hmi pid).mp (List.mem_append_left _ hx))
  have hpl : pid ∉ bm.lru := fun hx =>
    hpid ((hmi pid).mp (List.mem_append_right _ hx))
  constructor
  · show (keys (_ ++ [(pid, fr)])).Nodup
    rw [keys_append, List.nodup_append]
    refine ⟨hkn, by simp [keys], ?_⟩
    intro x hx hx2
    have : x = pid := by simpa [keys] using hx2
    subst this
    exact hpid hx
  · show ((bm.fifo ++ [pid]) ++ bm.lru).Nodup
    rw [List.nodup_append]
    refine ⟨?_, hl, ?_⟩
    · rw [List.nodup_append]
      refine ⟨hf, List.nodup_singleton _, ?_⟩
      intro x hx hx2
      rcases List.mem_singleton.mp hx2 with rfl
      exact hpf hx
    · intro x hx hxl
      rcases List.mem_append.mp hx with h1 | h1
      · exact hd h1 hxl
      · rcases List.mem_singleton.mp h1 with rfl
        exact hpl hxl
  · intro p
    show p ∈ (bm.fifo ++ [pid]) ++ bm.lru ↔ p ∈ keys (_ ++ [(pid, fr)])
    rw [keys_append]
    have hold := hmi p
    simp only [List.mem_append, List.mem_singleton] at hold ⊢
    simp only [keys, List.map_cons, List.map_nil, List.mem_singleton]
    tauto
  · show (bm.bufferFrameMap ++ [(pid, fr)]).length ≤ bm.page_count
    rw [List.length_append]
    simpa using hcap

theorem inv_evict {bm : BufferManager} (h : Inv bm) {v : Nat}
    (hvf : v ∈ bm.fifo) {fr : BufferFrame}
    (hv : lookupFrame bm.bufferFrameMap v = some fr) :
    Inv (bm.evict v) ∧
      (bm.evict v).bufferFrameMap.length < bm.bufferFrameMap.length := by
  have hvk : v ∈ keys bm.bufferFrameMap := mem_keys_of_lookupFrame hv
  obtain ⟨hkn, hqn, hmi, hsz⟩ := h
  rw [List.nodup_append] at hqn
  obtain ⟨hf, hl, hd⟩ := hqn
  rw [evict_state hv]
  refine ⟨⟨?_, ?_, ?_, ?_⟩, ?_⟩
  · show (keys (eraseFrame bm.bufferFrameMap v)).Nodup
    rw [keys_eraseFrame]
    exact hkn.filter _
  · show ((bm.fifo.filter fun q => q != v) ++ bm.lru).Nodup
    rw [List.nodup_append]
    refine ⟨hf.filter _, hl, ?_⟩
    intro x hx hxl
    exact hd (List.mem_filter.mp hx).1 hxl
  · intro p
    show p ∈ (bm.fifo.filter fun q => q != v) ++ bm.lru ↔
      p ∈ keys (eraseFrame bm.bufferFrameMap v)
    rw [keys_eraseFrame]
    by_cases hp : p = v
    · subst hp
      constructor
      · intro hpm
        rcases List.mem_append.mp hpm with h1 | h1
        · rcases List.mem_filter.mp h1 with ⟨_, hb⟩
          simp at hb
        · exact absurd h1 (fun hx => hd hvf hx)
      · intro hpk
        rcases List.mem_filter.mp hpk with ⟨_, hb⟩
        simp at hb
    · have hb : (p != v) = true := by simpa using hp
      have hold := hmi p
      constructor
      · intro hpm
        apply List.mem_filter.mpr
        refine ⟨hold.mp ?_, hb⟩
        rcases List.mem_append.mp hpm with h1 | h1
        · exact List.mem_append_left _ (List.mem_filter.mp h1).1
        · exact List.mem_append_right _ h1
      · intro hpk
        rcases List.mem_append.mp (hold.mpr (List.mem_filter.mp hpk).1) with h1 | h1
        · exact List.mem_append_left _ (List.mem_filter.mpr ⟨h1, hb⟩)
        · exact List.mem_append_right _ h1
  · show (eraseFrame bm.bufferFrameMap v).length ≤ bm.page_count
    exact le_trans (length_eraseFrame_le _ _) hsz
  · show (eraseFrame bm.bufferFrameMap v).length < bm.bufferFrameMap.length
    exact length_eraseFrame_lt hvk

theorem selectable_lookup {m : List (Nat × BufferFrame)} {v : Nat}
    (h : selectable m v = true) :
    ∃ fr, lookupFrame m v = some fr ∧ fr.latch = .free := by
  unfold selectable at h
  cases hv : lookupFrame m v with
  | none => rw [hv] at h; cases h
  | some fr =>
    rw [hv] at h
    exact ⟨fr, rfl, by simpa using h⟩

theorem evict_config (bm : BufferManager) (v : Nat) :
    (bm.evict v).page_count = bm.page_count ∧
      (bm.evict v).page_size = bm.page_size ∧
      (bm.evict v).lru = bm.lru := by
  unfold BufferManager.evict
  cases lookupFrame bm.bufferFrameMap v <;> exact ⟨rfl, rfl, rfl⟩

theorem inv_fix {bm : BufferManager} (h : Inv bm) (pid : Nat) (e : Bool) :
    Inv ((bm.fix_page pid e).state) := by
  cases hl : lookupFrame bm.bufferFrameMap pid with
  | some fr =>
    have hmem := mem_keys_of_lookupFrame hl
    cases htl : tryLatch fr.latch e with
    | some l =>
      rw [fix_page_hit_ok hl htl]
      exact inv_requeue h hmem _ (keys_updateFrame _ _ _) (length_updateFrame _ _ _)
    | none =>
      rw [fix_page_hit_blocked hl htl]
      exact inv_requeue h hmem _ rfl rfl
  | none =>
    have hpid : pid ∉ keys bm.bufferFrameMap := lookupFrame_eq_none_iff.mp hl
    cases hav : bm.isFrameAvailable with
    | true =>
      have hcap : bm.bufferFrameMap.length < bm.page_count := by
        simpa [BufferManager.isFrameAvailable] using hav
      rw [fix_page_miss_avail hl hav, insertNew_state]
      exact inv_insert h hpid hcap _
    | false =>
      cases hfind : bm.fifo.find? (fun q => selectable bm.bufferFrameMap q) with
      | none =>
        rw [fix_page_miss_full hl hav hfind]
        exact h
      | some v =>
        have hvf := List.mem_of_find?_eq_some hfind
        have hsel : selectable bm.bufferFrameMap v = true := List.find?_some hfind
        obtain ⟨frv, hv, _⟩ := selectable_lookup hsel
        obtain ⟨hinv', hlt⟩ := inv_evict h hvf hv
        have hpid' : pid ∉ keys (bm.evict v).bufferFrameMap := by
          rw [evict_state hv]
          intro hx
          rw [keys_eraseFrame] at hx
          exact hpid (List.mem_filter.mp hx).1
        have hcap' : (bm.evict v).bufferFrameMap.length <
            (bm.evict v).page_count := by
          rw [(evict_config bm v).1]
          exact lt_of_lt_of_le hlt h.size_le
        rw [fix_page_miss_evict hl hav hfind, insertNew_state]
        exact inv_insert hinv' hpid' hcap' _

theorem inv_unfix {bm : BufferManager} (h : Inv bm) (pid : Nat) (d : Bool) :
    Inv (bm.unfix_page pid d) := by
  obtain ⟨hkn, hqn, hmi, hsz⟩ := h
  refine ⟨?_, hqn, ?_, ?_⟩
  · show (keys (updateFrame _ _ _)).Nodup
    rw [keys_updateFrame]
    exact hkn
  · intro p
    show p ∈ _ ↔ p ∈ keys (updateFrame _ _ _)
    rw [keys_updateFrame]
    exact hmi p
  · show (updateFrame _ _ _).length ≤ _
    rw [length_updateFrame]
    exact hsz

theorem inv_step {bm : BufferManager} (h : Inv bm) (op : Op) :
    Inv (bm.step op) := by
  cases op with
  | fix pid e => exact inv_fix h pid e
  | unfix pid d => exact inv_unfix h pid d

theorem inv_run {bm : BufferManager} (h : Inv bm) (ops : List Op) :
    Inv (bm.run ops) := by
  induction ops generalizing bm with
  | nil => exact h
  | cons op rest ih =>
    show Inv ((bm.step op).run rest)
    exact ih (inv_step h op)

theorem fix_page_state_page_count (bm : BufferManager) (pid : Nat) (e : Bool) :
    ((bm.fix_page pid e).state).page_count = bm.page_count := by
  cases hl : lookupFrame bm.bufferFrameMap pid with
  | some fr =>
    cases htl : tryLatch fr.latch e with
    | some l => rw [fix_page_hit_ok hl htl]; rfl
    | none => rw [fix_page_hit_blocked hl htl]; rfl
  | none =>
    cases hav : bm.isFrameAvailable with
    | true => rw [fix_page_miss_avail hl hav, insertNew_state]
    | false =>
      cases hfind : bm.fifo.find? (fun q => selectable bm.bufferFrameMap q) with
      | none => rw [fix_page_miss_full hl hav hfind]; rfl
      | some v =>
        rw [fix_page_miss_evict hl hav hfind, insertNew_state]
        exact (evict_config bm v).1

theorem step_page_count (bm : BufferManager) (op : Op) :
    (bm.step op).page_count = bm.page_count := by
  cases op with
  | fix pid e => exact fix_page_state_page_count bm pid e
  | unfix pid d => rfl

theorem run_page_count (bm : BufferManager) (ops : List Op) :
    (bm.run ops).page_count = bm.page_count := by
  induction ops generalizing bm with
  | nil => rfl
  | cons op rest ih =>
    show ((bm.step op).run rest).page_count = _
    rw [ih, step_page_count]

/-- A store with all-zero contents whose reads always succeed, used for the
concrete scenarios below. -/
def diskZero : Disk :=
  { bytes := fun _ _ => 0, readFails := fun _ _ => false }

/-- A store whose reads always fail with an I/O error, modelling a broken
backing file. -/
def diskFail : Disk :=
  { bytes := fun _ _ => 0, readFails := fun _ _ => true }

/-- Whether a fix_page call ended in buffer_full_error. -/
def FixOutcome.isBufferFull : FixOutcome → Bool
  | .bufferFull _ => true
  | _ => false

/-- Capacity-one pool in which page 1 was fixed, unfixed, re-fixed (promoting
it from the FIFO queue to the LRU queue) and unfixed again: page 1 is
resident, unlatched, and sits in the LRU queue while the FIFO queue is
empty. -/
def bmLruOnly : BufferManager :=
  (BufferManager.new 16 1 diskZero).run
    [.fix 1 false, .unfix 1 false, .fix 1 false, .unfix 1 false]

/-- Capacity-one pool holding page 1 under an exclusive latch. -/
def bmHeld : BufferManager :=
  (BufferManager.new 16 1 diskZero).run [.fix 1 true]

/-- Capacity-three pool holding pages 1, 2, 3 under exclusive latches
(scenario S4 of the specification). -/
def bmS4 : BufferManager :=
  (BufferManager.new 16 3 diskZero).run [.fix 1 true, .fix 2 true, .fix 3 true]

/-- Capacity-two pool in which page 1 was fixed, unfixed, re-fixed and
unfixed, so it sits unlatched in the LRU queue. -/
def bmPromoted : BufferManager :=
  (BufferManager.new 16 2 diskZero).run
    [.fix 1 false, .unfix 1 false, .fix 1 false, .unfix 1 false]

/-- Capacity-two pool holding page 3 under an exclusive latch. -/
def bmHeld3 : BufferManager :=
  (BufferManager.new 16 2 diskZero).run [.fix 3 true]

/-- Fresh capacity-one pool over the failing store after fix_page(5,
exclusive): page 5 is resident with an empty, not yet materialised frame. -/
def bmFail5 : BufferManager :=
  ((BufferManager.new 16 1 diskFail).fix_page 5 true).state

/-- Helper for C10: with page_count zero every call is a no-op, so any call
sequence leaves the freshly constructed pool unchanged. -/
theorem run_new_zero (ps : Nat) (d : Disk) (ops : List Op) :
    (BufferManager.new ps 0 d).run ops = BufferManager.new ps 0 d := by
  induction ops with
  | nil => rfl
  | cons op rest ih =>
    show ((BufferManager.new ps 0 d).step op).run rest = _
    have hstep : (BufferManager.new ps 0 d).step op = BufferManager.new ps 0 d := by
      cases op with
      | fix pid e => rfl
      | unfix pid dd => rfl
    rw [hstep, ih]

/-- C2: for every sequence of fix_page and unfix_page calls starting from a
freshly constructed pool, the number of frames resident in the frame table
never exceeds the configured page_count. -/
theorem C2_resident_frames_le_page_count (ps pc : Nat) (d : Disk)
    (ops : List Op) :
    (((BufferManager.new ps pc d).run ops).bufferFrameMap).length ≤ pc := by
  have h := (inv_run (inv_new ps pc d) ops).size_le
  have hpc := run_page_count (BufferManager.new ps pc d) ops
  rw [hpc] at h
  exact h

/-- C3: whenever fix_page terminates by throwing buffer_full_error, the pool
state (frame table, FIFO queue, LRU queue, every resident frame, the backing
store) is exactly as it was before the call. -/
theorem C3_buffer_full_leaves_state_unchanged (bm bm' : BufferManager)
    (pid : Nat) (e : Bool) (h : bm.fix_page pid e = .bufferFull bm') :
    bm' = bm := by
  cases hl : lookupFrame bm.bufferFrameMap pid with
  | some fr =>
    cases htl : tryLatch fr.latch e with
    | some l => rw [fix_page_hit_ok hl htl] at h; cases h
    | none => rw [fix_page_hit_blocked hl htl] at h; cases h
  | none =>
    cases hav : bm.isFrameAvailable with
    | true =>
      rw [fix_page_miss_avail hl hav] at h
      simp [BufferManager.insertNew] at h
    | false =>
      cases hfind : bm.fifo.find? (fun q => selectable bm.bufferFrameMap q) with
      | none =>
        rw [fix_page_miss_full hl hav hfind] at h
        cases h
        rfl
      | some v =>
        rw [fix_page_miss_evict hl hav hfind] at h
        simp [BufferManager.insertNew] at h

/-- C3 witness: with pages 1, 2, 3 all held exclusively in a capacity-three
pool, fix_page(4, shared) throws buffer_full_error and the state it reports
is the pre-call state. -/
theorem C3_buffer_full_leaves_state_unchanged_witness : bmS4 = bmS4 :=
  C3_buffer_full_leaves_state_unchanged bmS4 bmS4 4 false rfl

/-- C5: after every sequence of fix_page and unfix_page calls from a fresh
pool, each page id maps to at most one frame, each resident frame is in
exactly one of the FIFO and LRU queues, and each queue entry is resident. -/
theorem C5_exactly_one_queue_and_unique_pages (ps pc : Nat) (d : Disk)
    (ops : List Op) :
    (keys (((BufferManager.new ps pc d).run ops).bufferFrameMap)).Nodup ∧
    (∀ p, p ∈ keys (((BufferManager.new ps pc d).run ops).bufferFrameMap) →
      (p ∈ ((BufferManager.new ps pc d).run ops).fifo ∧
        p ∉ ((BufferManager.new ps pc d).run ops).lru) ∨
      (p ∈ ((BufferManager.new ps pc d).run ops).lru ∧
        p ∉ ((BufferManager.new ps pc d).run ops).fifo)) ∧
    (∀ p, p ∈ ((BufferManager.new ps pc d).run ops).fifo ∨
        p ∈ ((BufferManager.new ps pc d).run ops).lru →
      p ∈ keys (((BufferManager.new ps pc d).run ops).bufferFrameMap)) := by
  obtain ⟨hkn, hqn, hmi, _⟩ := inv_run (inv_new ps pc d) ops
  rw [List.nodup_append] at hqn
  obtain ⟨_, _, hdis⟩ := hqn
  refine ⟨hkn, ?_, ?_⟩
  · intro p hp
    rcases List.mem_append.mp ((hmi p).mpr hp) with h1 | h1
    · exact Or.inl ⟨h1, fun hx => hdis h1 hx⟩
    · exact Or.inr ⟨h1, fun hx => hdis hx h1⟩
  · intro p hp
    apply (hmi p).mp
    rcases hp with h1 | h1
    · exact List.mem_append_left _ h1
    · exact List.mem_append_right _ h1

/-- C10: a pool constructed with page_count zero answers every fix_page
call, for every page id, in shared or exclusive mode and after any earlier
calls, with buffer_full_error and an unchanged state: the capacity check
fails on the empty table and the victim scan over the empty FIFO queue
selects nothing. -/
theorem C10_zero_capacity_always_buffer_full (ps : Nat) (d : Disk)
    (ops : List Op) (pid : Nat) (e : Bool) :
    ((BufferManager.new ps 0 d).run ops).fix_page pid e =
      .bufferFull ((BufferManager.new ps 0 d).run ops) := by
  rw [run_new_zero]
  rfl

/-- C1 (amended): on a fix_page miss with the frame table at capacity, the
pool chooses the eviction victim by scanning only the FIFO queue
head-to-tail, a frame being selectable iff a non-blocking exclusive latch
acquisition on it succeeds; fix_page fails with buffer_full_error, leaving
the state unchanged, exactly when no FIFO frame is selectable — the LRU
queue is never scanned and is left untouched. -/
theorem C1_victim_scan_fifo_only (bm : BufferManager) (pid : Nat) (e : Bool)
    (hl : lookupFrame bm.bufferFrameMap pid = none)
    (hav : bm.isFrameAvailable = false) :
    (bm.fix_page pid e = .bufferFull bm ↔
      bm.fifo.find? (fun q => selectable bm.bufferFrameMap q) = none) ∧
    (∀ v, bm.fifo.find? (fun q => selectable bm.bufferFrameMap q) = some v →
      v ∈ bm.fifo ∧ selectable bm.bufferFrameMap v = true ∧
      ∃ bm', bm.fix_page pid e = .ok bm' pid ∧
        v ∉ keys bm'.bufferFrameMap ∧
        bm'.lru = bm.lru ∧
        bm'.fifo = (bm.fifo.filter fun q => q != v) ++ [pid]) := by
  constructor
  · constructor
    · intro hbf
      cases hfind : bm.fifo.find? (fun q => selectable bm.bufferFrameMap q) with
      | none => rfl
      | some v =>
        rw [fix_page_miss_evict hl hav hfind] at hbf
        simp [BufferManager.insertNew] at hbf
    · intro hfind
      exact fix_page_miss_full hl hav hfind
  · intro v hfind
    have hsel : selectable bm.bufferFrameMap v = true := List.find?_some hfind
    obtain ⟨frv, hv, _⟩ := selectable_lookup hsel
    have hvk : v ∈ keys bm.bufferFrameMap := mem_keys_of_lookupFrame hv
    have hpk : pid ∉ keys bm.bufferFrameMap := lookupFrame_eq_none_iff.mp hl
    have hvp : v ≠ pid := fun hh => hpk (hh ▸ hvk)
    refine ⟨List.mem_of_find?_eq_some hfind, hsel,
      ((bm.evict v).insertNew pid e).state, ?_, ?_, ?_, ?_⟩
    · rw [fix_page_miss_evict hl hav hfind, insertNew_state]
      rfl
    · rw [insertNew_state, evict_state hv]
      show v ∉ keys (eraseFrame bm.bufferFrameMap v ++ [(pid, _)])
      rw [keys_append, keys_eraseFrame]
      intro hx
      rcases List.mem_append.mp hx with h1 | h1
      · rcases List.mem_filter.mp h1 with ⟨_, hb⟩
        simp at hb
      · have : v = pid := by simpa [keys] using h1
        exact hvp this
    · rw [insertNew_state, evict_state hv]
    · rw [insertNew_state, evict_state hv]

/-- C1 witness: in a capacity-one pool whose single page 1 is held under an
exclusive latch, fix_page(2, shared) misses, finds no selectable FIFO frame
and throws buffer_full_error. -/
theorem C1_victim_scan_fifo_only_witness :
    (bmHeld.fix_page 2 false).isBufferFull = true := by
  have h := C1_victim_scan_fifo_only bmHeld 2 false rfl rfl
  have hfind : bmHeld.fifo.find?
      (fun q => selectable bmHeld.bufferFrameMap q) = none := rfl
  rw [h.1.mpr hfind]
  rfl

/-- C1 counterexample to the claim as stated: in a capacity-one pool whose
single resident page 1 sits unlatched in the LRU queue (FIFO empty),
fix_page(2, shared) throws buffer_full_error even though frame 1 is
selectable — a non-blocking exclusive latch acquisition on it would succeed
— so the LRU queue is not scanned and the failure is not limited to the
no-selectable-frame case. -/
theorem C1_counterexample_lru_selectable_still_full :
    bmLruOnly.get_fifo_list = [] ∧
    bmLruOnly.get_lru_list = [1] ∧
    selectable bmLruOnly.bufferFrameMap 1 = true ∧
    lookupFrame bmLruOnly.bufferFrameMap 2 = none ∧
    bmLruOnly.isFrameAvailable = false ∧
    (bmLruOnly.fix_page 2 false).isBufferFull = true :=
  ⟨rfl, rfl, rfl, rfl, rfl, rfl⟩

/-- C4: on every fix_page hit the frame is removed from whichever queue held
it and appended to the LRU tail (first reuse moves it from FIFO to LRU,
later reuses re-append it to the LRU tail), and no fix_page or unfix_page
call ever moves a frame from the LRU queue back to the FIFO queue. -/
theorem C4_hit_promotes_to_lru_tail :
    (∀ (bm : BufferManager) (pid : Nat) (e : Bool) (fr : BufferFrame),
      lookupFrame bm.bufferFrameMap pid = some fr →
      ((bm.fix_page pid e).state).lru =
          (bm.lru.filter fun q => q != pid) ++ [pid] ∧
        ((bm.fix_page pid e).state).fifo = bm.fifo.filter fun q => q != pid) ∧
    (∀ (bm : BufferManager) (op : Op) (pid : Nat), Inv bm → pid ∈ bm.lru →
      pid ∉ (bm.step op).fifo) := by
  constructor
  · intro bm pid e fr hl
    cases htl : tryLatch fr.latch e with
    | some l => rw [fix_page_hit_ok hl htl]; exact ⟨rfl, rfl⟩
    | none => rw [fix_page_hit_blocked hl htl]; exact ⟨rfl, rfl⟩
  · intro bm op pid hinv hlru
    have hdis : List.Disjoint bm.fifo bm.lru :=
      (List.nodup_append.mp hinv.queuesNodup).2.2
    have hpf : pid ∉ bm.fifo := fun hx => hdis hx hlru
    have hpk : pid ∈ keys bm.bufferFrameMap :=
      (hinv.mem_iff pid).mp (List.mem_append_right _ hlru)
    cases op with
    | unfix q dd => exact hpf
    | fix q e =>
      show pid ∉ ((bm.fix_page q e).state).fifo
      cases hl : lookupFrame bm.bufferFrameMap q with
      | some fr =>
        cases htl : tryLatch fr.latch e with
        | some l =>
          rw [fix_page_hit_ok hl htl]
          intro hx
          exact hpf (List.mem_filter.mp hx).1
        | none =>
          rw [fix_page_hit_blocked hl htl]
          intro hx
          exact hpf (List.mem_filter.mp hx).1
      | none =>
        have hq : q ∉ keys bm.bufferFrameMap := lookupFrame_eq_none_iff.mp hl
        have hqp : pid ≠ q := fun hh => hq (hh ▸ hpk)
        cases hav : bm.isFrameAvailable with
        | true =>
          rw [fix_page_miss_avail hl hav, insertNew_state]
          intro hx
          rcases List.mem_append.mp hx with h1 | h1
          · exact hpf h1
          · exact hqp (List.mem_singleton.mp h1)
        | false =>
          cases hfind : bm.fifo.find?
              (fun q => selectable bm.bufferFrameMap q) with
          | none => rw [fix_page_miss_full hl hav hfind]; exact hpf
          | some v =>
            obtain ⟨frv, hv, _⟩ := selectable_lookup (List.find?_some hfind)
            rw [fix_page_miss_evict hl hav hfind, insertNew_state,
              evict_state hv]
            intro hx
            rcases List.mem_append.mp hx with h1 | h1
            · exact hpf (List.mem_filter.mp h1).1
            · exact hqp (List.mem_singleton.mp h1)

/-- C4 witness: re-fixing the already promoted page 1 re-appends it to the
LRU tail, and fixing the fresh page 2 does not move page 1 out of the LRU
queue into the FIFO queue. -/
theorem C4_hit_promotes_to_lru_tail_witness :
    ((bmPromoted.fix_page 1 false).state).lru = [1] ∧
    1 ∉ (bmPromoted.step (.fix 2 false)).fifo := by
  have h := C4_hit_promotes_to_lru_tail
  constructor
  · have h1 := (h.1 bmPromoted 1 false _ rfl).1
    rw [h1]
    rfl
  · exact h.2 bmPromoted (.fix 2 false) 1
      ⟨by decide, by decide, fun _ => Iff.rfl, by decide⟩ (by decide)

/-- C6 (code evaluated at the failing input): fix_page(5, exclusive) on a
fresh pool makes page 5 resident without reading it (materialisation is
deferred to get_data); when the deferred backing-store read then fails, the
error is propagated with the frame still present in the frame table and in
the FIFO queue — the code has no handler removing the newly created frame,
contrary to the requirement of the specification. -/
theorem C6_read_failure_frame_stays_resident :
    lookupFrame bmFail5.bufferFrameMap 5 ≠ none ∧
    (bmFail5.getData 5).2 = none ∧
    5 ∈ keys ((bmFail5.getData 5).1).bufferFrameMap ∧
    5 ∈ ((bmFail5.getData 5).1).fifo ∧
    (∃ fr, lookupFrame ((bmFail5.getData 5).1).bufferFrameMap 5 = some fr ∧
      fr.state = .empty) := by
  refine ⟨by decide, rfl, by decide, by decide, ?_⟩
  exact ⟨_, rfl, rfl⟩

/-- C7: flush writes the buffer to the backing file at the offset of the frame
and sets the state to Clean when the state is Dirty, does nothing when the
state is Clean or Empty, and flush followed immediately by flush produces
the same frame state and the same file contents as a single flush. -/
theorem C7_flush_dirty_clean_idempotent (fr : BufferFrame) (d : Disk) :
    (fr.state = .dirty →
      fr.flush d = ({ fr with state := .clean },
        d.writeBlock fr.segment_id fr.pageOffsetInFile (fr.data.getD []))) ∧
    (fr.state ≠ .dirty → fr.flush d = (fr, d)) ∧
    (fr.flush d).1.flush (fr.flush d).2 = fr.flush d := by
  refine ⟨?_, ?_, ?_⟩
  · intro h
    simp [BufferFrame.flush, BufferFrame.writePage, h]
  · intro h
    simp [BufferFrame.flush, h]
  · by_cases h : fr.state = .dirty
    · simp [BufferFrame.flush, BufferFrame.writePage, h]
    · simp [BufferFrame.flush, h]

/-- A dirty four-byte frame used to witness C7. -/
def frDirty : BufferFrame :=
  { BufferFrame.mkFrame 7 4 0 with state := .dirty, data := some [1, 2, 3, 4] }

/-- C7 witness: flushing the concrete dirty frame makes it clean, and a
second flush changes nothing. -/
theorem C7_flush_dirty_clean_idempotent_witness :
    (frDirty.flush diskZero).1.state = .clean ∧
    (frDirty.flush diskZero).1.flush (frDirty.flush diskZero).2 =
      frDirty.flush diskZero := by
  have h := C7_flush_dirty_clean_idempotent frDirty diskZero
  refine ⟨?_, h.2.2⟩
  rw [h.1 rfl]

/-- C8: unfix_page sets the state of the frame to Dirty and releases the latch
when is_dirty is true and only releases the latch when is_dirty is false,
leaving the queues, the backing store, the configuration, every other
resident frame, and the own identity of the frame, offset and buffer contents
unchanged. -/
theorem C8_unfix_marks_dirty_and_releases_latch (bm : BufferManager)
    (pid : Nat) (d : Bool) (fr : BufferFrame)
    (h : lookupFrame bm.bufferFrameMap pid = some fr) :
    (bm.unfix_page pid d).fifo = bm.fifo ∧
    (bm.unfix_page pid d).lru = bm.lru ∧
    (bm.unfix_page pid d).disk = bm.disk ∧
    (bm.unfix_page pid d).page_size = bm.page_size ∧
    (bm.unfix_page pid d).page_count = bm.page_count ∧
    (∀ q, q ≠ pid → lookupFrame (bm.unfix_page pid d).bufferFrameMap q =
      lookupFrame bm.bufferFrameMap q) ∧
    lookupFrame (bm.unfix_page pid d).bufferFrameMap pid =
      some { fr with state := if d then .dirty else fr.state,
                     latch := unlatch fr.latch } := by
  refine ⟨rfl, rfl, rfl, rfl, rfl, ?_, ?_⟩
  · intro q hq
    exact lookupFrame_updateFrame_ne _ hq
  · have hu := lookupFrame_updateFrame_self
      (fun fr => (if d then fr.setDirty else fr).unlock) h
    show lookupFrame (updateFrame bm.bufferFrameMap pid _) pid = _
    rw [hu]
    cases d <;> simp [BufferFrame.setDirty, BufferFrame.unlock]

/-- C8 witness: unfixing page 3, held exclusively, with is_dirty true leaves
the FIFO queue unchanged and does not disturb the (absent) entry of page
2. -/
theorem C8_unfix_marks_dirty_and_releases_latch_witness :
    (bmHeld3.unfix_page 3 true).fifo = bmHeld3.fifo ∧
    lookupFrame (bmHeld3.unfix_page 3 true).bufferFrameMap 2 =
      lookupFrame bmHeld3.bufferFrameMap 2 := by
  have h := C8_unfix_marks_dirty_and_releases_latch bmHeld3 3 true _ rfl
  exact ⟨h.1, h.2.2.2.2.2.1 2 (by decide)⟩

/-- C9: get_segment_id is the high 16 bits of the page id,
get_segment_page_id is the low 48 bits, and the byte offset at which the
frame constructed for a page reads and writes in its segment file is
get_segment_page_id(pid) * page_size (the size_t wrap-around being
immaterial while the product stays below 2^64). -/
theorem C9_page_id_split_and_offset (pid ps : Nat) (h64 : pid < 2 ^ 64)
    (hov : get_segment_page_id pid * ps < 2 ^ 64) :
    get_segment_id pid = pid >>> 48 ∧
    get_segment_page_id pid = pid &&& (2 ^ 48 - 1) ∧
    (BufferFrame.mkFrame pid ps (get_segment_id pid)).pageOffsetInFile =
      get_segment_page_id pid * ps ∧
    (∀ d : Disk,
      ((BufferFrame.mkFrame pid ps (get_segment_id pid)).writePage d).2 =
        d.writeBlock (get_segment_id pid) (get_segment_page_id pid * ps)
          ((BufferFrame.mkFrame pid ps (get_segment_id pid)).data.getD [])) ∧
    (∀ d : Disk,
      d.readFails (get_segment_id pid) (get_segment_page_id pid * ps) = false →
      ∃ fr1,
        (BufferFrame.mkFrame pid ps (get_segment_id pid)).readPage d = .ok fr1 ∧
        fr1.data = some ((List.range ps).map fun i =>
          d.bytes (get_segment_id pid) (get_segment_page_id pid * ps + i))) := by
  have hsh : pid >>> 48 < 2 ^ 16 := by
    rw [Nat.shiftRight_eq_div_pow]
    rw [Nat.div_lt_iff_lt_mul (by norm_num : (0 : Nat) < 2 ^ 48)]
    calc pid < 2 ^ 64 := h64
      _ = 2 ^ 16 * 2 ^ 48 := by norm_num
  have hoff : (((pid &&& (2 ^ 48 - 1)) * ps) % 2 ^ 64) =
      get_segment_page_id pid * ps := Nat.mod_eq_of_lt hov
  refine ⟨Nat.mod_eq_of_lt hsh, rfl, hoff, ?_, ?_⟩
  · intro d
    simp only [BufferFrame.writePage, BufferFrame.mkFrame]
    rw [hoff]
  · intro d hd
    have hread : (BufferFrame.mkFrame pid ps (get_segment_id pid)).readPage d =
        .ok { BufferFrame.mkFrame pid ps (get_segment_id pid) with
              data := some ((List.range ps).map fun i =>
                d.bytes (get_segment_id pid) (get_segment_page_id pid * ps + i))
              state := .clean } := by
      simp only [BufferFrame.readPage, BufferFrame.mkFrame, hoff, hd]
      simp
    exact ⟨_, hread, rfl⟩

/-- Page id with segment 3 and in-segment index 5, witnessing C9. -/
def pidW : Nat := 3 * 2 ^ 48 + 5

/-- C9 witness at the concrete page id. -/
theorem C9_page_id_split_and_offset_witness :
    (BufferFrame.mkFrame pidW 1024 (get_segment_id pidW)).pageOffsetInFile =
      get_segment_page_id pidW * 1024 ∧
    get_segment_id pidW = pidW >>> 48 := by
  have h := C9_page_id_split_and_offset pidW 1024 (by decide) (by decide)
  exact ⟨h.2.2.1, h.1⟩

end Moderndbs

